import Mathlib

/-!
Verification of the sequential IPAM allocator
(`plugins/ipam/allocator/sequential/allocator.go`).

Addresses (`net.IP`) are byte lists in big-endian order; a Go `nil` IP is
modelled as the empty list.  The store backend and `pkg/ip.NextIP` are not
part of the sources, so they are modelled from the specification (see the
doc comments on `Store` and `nextAddr`).  All other definitions are direct
translations of the Go source.
-/

/-- A `net.IP`: big-endian bytes; `[]` models Go's `nil`. -/
abbrev IP := List Nat

/-- Every byte of the address is an actual byte value. -/
def validBytes (ip : IP) : Prop := ∀ b ∈ ip, b < 256

instance (ip : IP) : Decidable (validBytes ip) := by
  unfold validBytes; infer_instance

/-- The 12 leading bytes of an IPv4-in-IPv6 address (Go `v4InV6Prefix`). -/
def v4in6 : List Nat := [0, 0, 0, 0, 0, 0, 0, 0, 0, 0, 255, 255]

/-- Go `net.IP.To4`: the 4-byte form of an IPv4 or v4-mapped address. -/
def to4 (a : IP) : Option IP :=
  if a.length = 4 then some a
  else if a.length = 16 ∧ a.take 12 = v4in6 then some (a.drop 12)
  else none

/-- Go `net.IP.To16`: the 16-byte form, `none` for other lengths. -/
def to16 (a : IP) : Option IP :=
  if a.length = 4 then some (v4in6 ++ a)
  else if a.length = 16 then some a
  else none

/-- The normalization performed by `networkRange`: `To4`, else `To16`. -/
def normalizeIP (a : IP) : Option IP :=
  match to4 a with
  | some v => some v
  | none => to16 a

/-- Go `net.IP.Equal`. -/
def ipEqual (a b : IP) : Bool :=
  if a.length = b.length then a == b
  else if a.length = 4 ∧ b.length = 16 then
    decide (b.take 12 = v4in6 ∧ a = b.drop 12)
  else if a.length = 16 ∧ b.length = 4 then
    decide (a.take 12 = v4in6 ∧ a.drop 12 = b)
  else false

/-- The value of an address as a big-endian integer. -/
def bytesToNat : IP → Nat
  | [] => 0
  | b :: rest => b * 256 ^ rest.length + bytesToNat rest

/-- The `w`-byte big-endian encoding of `n % 256 ^ w`. -/
def natToBytes : Nat → Nat → IP
  | 0, _ => []
  | w + 1, n => (n / 256 ^ w) % 256 :: natToBytes w (n % 256 ^ w)

/-- Modelled from the spec: `NextAddress` (`pkg/ip.NextIP`, not under the
sources) returns the address numerically one greater, treating it as a
fixed-width big-endian integer with carries across all bytes and overflow
wrapping within the fixed width. -/
def nextAddr (ip : IP) : IP :=
  natToBytes ip.length ((bytesToNat ip + 1) % 256 ^ ip.length)

/-- A `net.IPNet`: address plus mask. -/
structure IPNet where
  ip : IP
  mask : List Nat
  deriving Repr, DecidableEq

/-- Go `networkNumberAndMask`: normalize the network's address and mask. -/
def networkNumberAndMask (n : IPNet) : Option (IP × List Nat) :=
  let ipo : Option IP :=
    match to4 n.ip with
    | some v => some v
    | none => if n.ip.length = 16 then some n.ip else none
  match ipo with
  | none => none
  | some nn =>
    if n.mask.length = 4 then
      if nn.length ≠ 4 then none else some (nn, n.mask)
    else if n.mask.length = 16 then
      if nn.length = 4 then some (nn, n.mask.drop 12) else some (nn, n.mask)
    else none

/-- Go `net.IPNet.Contains`. -/
def contains (n : IPNet) (i : IP) : Bool :=
  match networkNumberAndMask n with
  | none => false
  | some (nn, m) =>
    let x := match to4 i with | some v => v | none => i
    decide (x.length = nn.length) &&
      (List.range x.length).all
        (fun k => (x.getD k 0) &&& (m.getD k 0) == (nn.getD k 0) &&& (m.getD k 0))

/- ### Data model -/

/-- A route attached to the result (`types.Route`); opaque pass-through. -/
structure Route where
  dst : IPNet
  gw : IP
  deriving Repr, DecidableEq

/-- The `Args` struct of the configuration, carrying a requested IP. -/
structure IPAMArgs where
  ip : IP
  deriving Repr, DecidableEq

/-- The IPAM configuration consumed by the allocator (`IPAMConfig`).
Absent optional addresses are `[]` (Go `nil`); `args` is the nilable
pointer to the `Args` struct. -/
structure IPAMConfig where
  name : String
  subnet : IPNet
  rangeStart : IP
  rangeEnd : IP
  gateway : IP
  args : Option IPAMArgs
  routes : List Route
  deriving Repr, DecidableEq

/-- The distinct error outcomes of the allocator; each constructor stands
for a distinct `fmt.Errorf` message of the source.  `outOfFuel` is not a
source error: it marks that the bounded model of the unbounded search loop
ran out of fuel before the loop finished. -/
inductive AllocErr where
  | missingSubnet
  | ipNotV4NorV6
  | versionMismatch
  | notInNetwork
  | requestedEqualsGateway
  | addressUnavailable (ip : IP) (name : String)
  | poolExhausted (name : String)
  | outOfFuel
  deriving Repr, DecidableEq

/-- `types.IPConfig`: the successful result of `Get`. -/
structure IPConfig where
  ip : IPNet
  gateway : IP
  routes : List Route
  deriving Repr, DecidableEq

/-- Modelled from the spec: the Persistent Reservation Store (section 4.3);
the store implementation (`plugins/ipam/store`) is not under the sources.
The state is the reservation table (address, owner), the Last-Reserved
Marker, a flag making the marker read fail (a `StoreIOError` on
`LastReservedIP`), and a ghost `log` recording every address ever passed
to `Reserve`, newest first.  The log has no effect on behavior; it only
lets theorems talk about which addresses were offered to the store. -/
structure Store where
  reservations : List (IP × String)
  lastReserved : Option IP
  lastReservedErr : Bool
  log : List IP
  deriving Repr, DecidableEq

/-- Modelled from the spec: `Reserve(ownerID, address)` inserts the record
iff the address has no owner, also updating the marker on success; it
returns `false` with no mutation (beyond the ghost log) when the address is
already owned by anyone. -/
def Store.reserve (st : Store) (id : String) (i : IP) : Bool × Store :=
  let logged : Store := { st with log := i :: st.log }
  if st.reservations.any (fun r => ipEqual r.1 i) then (false, logged)
  else
    (true, { logged with reservations := (i, id) :: st.reservations,
                         lastReserved := some i })

/-- Modelled from the spec: `ReleaseByID` removes every record owned by the
id; zero matches is not an error. -/
def Store.releaseByID (st : Store) (id : String) : Store :=
  { st with reservations := st.reservations.filter (fun r => decide (r.2 ≠ id)) }

/-- Modelled from the spec: `LastReservedIP` returns the marker, `none` if
never set, or an error on a store read failure. -/
def Store.lastReservedIP (st : Store) : Except Unit (Option IP) :=
  if st.lastReservedErr then Except.error () else Except.ok st.lastReserved

/-- A store with no reservations and no marker. -/
def emptyStore : Store :=
  { reservations := [], lastReserved := none, lastReservedErr := false, log := [] }

/- ### The allocator (`allocator.go`) -/

/-- `validateRangeIP`: error unless the network contains the address. -/
def validateRangeIP (i : IP) (n : IPNet) : Except AllocErr Unit :=
  if contains n i then Except.ok () else Except.error AllocErr.notInNetwork

/-- The byte computation in `networkRange`: each address byte OR-ed with
the bit-inverted mask byte. -/
def orInv (a m : List Nat) : IP :=
  (List.zip a m).map (fun p => p.1 ||| (p.2 ^^^ 255))

/-- `networkRange`: the subnet's address as given, and its all-host-bits
address computed from the normalized address and the mask. -/
def networkRange (n : IPNet) : Except AllocErr (IP × IP) :=
  if n.ip = [] then Except.error AllocErr.missingSubnet
  else
    match normalizeIP n.ip with
    | none => Except.error AllocErr.ipNotV4NorV6
    | some v =>
      if v.length ≠ n.mask.length then Except.error AllocErr.versionMismatch
      else Except.ok (n.ip, orInv v n.mask)

/-- The allocator: the frozen effective range and the configuration.  The
store handle is not stored here; it is threaded through the operations as
explicit state. -/
structure IPAllocator where
  start : IP
  endIP : IP
  conf : IPAMConfig
  deriving Repr, DecidableEq

/-- `NewIPAllocator`: freeze the effective range.  The start is the address
after the subnet's first address, replaced verbatim by `RangeStart` when
given; the end is the all-host-bits address, replaced by the successor of
`RangeEnd` when given; range inputs must lie in the subnet.  No store
operation happens (the definition does not touch a `Store`). -/
def NewIPAllocator (conf : IPAMConfig) : Except AllocErr IPAllocator :=
  match networkRange conf.subnet with
  | Except.error e => Except.error e
  | Except.ok (s0, e0) =>
    let start0 := nextAddr s0
    match (if conf.rangeStart ≠ [] then validateRangeIP conf.rangeStart conf.subnet
           else Except.ok ()) with
    | Except.error e => Except.error e
    | Except.ok _ =>
      let start1 := if conf.rangeStart ≠ [] then conf.rangeStart else start0
      match (if conf.rangeEnd ≠ [] then validateRangeIP conf.rangeEnd conf.subnet
             else Except.ok ()) with
      | Except.error e => Except.error e
      | Except.ok _ =>
        let end1 := if conf.rangeEnd ≠ [] then nextAddr conf.rangeEnd else e0
        Except.ok { start := start1, endIP := end1, conf := conf }

/-- `IPAllocator.nextIP`: the next candidate, wrapping from the `end`
bound back to `start`. -/
def IPAllocator.nextIP (a : IPAllocator) (cur : IP) : IP :=
  if ipEqual cur a.endIP then a.start else nextAddr cur

/-- The requested IP carried by the configuration (`a.conf.Args.IP`). -/
def requestedIPOf (conf : IPAMConfig) : IP :=
  match conf.args with
  | none => []
  | some ar => ar.ip

/-- The gateway `Get` resolves: the configured one if set, else the
address after the subnet's address. -/
def resolveGateway (conf : IPAMConfig) : IP :=
  if conf.gateway = [] then nextAddr conf.subnet.ip else conf.gateway

/-- `getSearchRange`: seed the walk from the last reserved address when the
marker read succeeds, a marker exists and it validates against the subnet;
otherwise use the allocator's own bounds.  A read failure only logs a
warning in the source and falls through to the default bounds. -/
def IPAllocator.getSearchRange (a : IPAllocator) (st : Store) : IP × IP :=
  match st.lastReservedIP with
  | Except.error _ => (a.start, a.endIP)
  | Except.ok none => (a.start, a.endIP)
  | Except.ok (some last) =>
    match validateRangeIP last { ip := a.conf.subnet.ip, mask := a.conf.subnet.mask } with
    | Except.ok _ => (a.nextIP last, last)
    | Except.error _ => (a.start, a.endIP)

/-- The search loop of `Get`: walk candidates from `cur` until `endB`,
skipping the gateway, reserving the first free address; exhaustion (the
candidate reaching `endB`) is a `poolExhausted` error.  `fuel` bounds the
walk; running out of fuel models the Go loop still running. -/
def IPAllocator.searchLoop (a : IPAllocator) (id : String) (gw endB : IP) :
    Nat → IP → Store → Except AllocErr IPConfig × Store
  | 0, _, st => (Except.error AllocErr.outOfFuel, st)
  | fuel + 1, cur, st =>
    if ipEqual cur endB then (Except.error (AllocErr.poolExhausted a.conf.name), st)
    else if gw ≠ [] ∧ ipEqual cur gw = true then
      a.searchLoop id gw endB fuel (a.nextIP cur) st
    else
      match st.reserve id cur with
      | (true, st') =>
        (Except.ok { ip := { ip := cur, mask := a.conf.subnet.mask },
                     gateway := gw, routes := a.conf.routes }, st')
      | (false, st') => a.searchLoop id gw endB fuel (a.nextIP cur) st'

/-- `IPAllocator.Get`: allocate an address for owner `id`.  The store
handle is threaded as explicit state (the source holds the store's lock
for the whole call, so the call sees and produces one store state). -/
def IPAllocator.get (a : IPAllocator) (id : String) (fuel : Nat) (st : Store) :
    Except AllocErr IPConfig × Store :=
  let gw := resolveGateway a.conf
  let requestedIP := requestedIPOf a.conf
  if requestedIP ≠ [] then
    if gw ≠ [] ∧ ipEqual gw requestedIP = true then
      (Except.error AllocErr.requestedEqualsGateway, st)
    else
      match validateRangeIP requestedIP { ip := a.conf.subnet.ip, mask := a.conf.subnet.mask } with
      | Except.error e => (Except.error e, st)
      | Except.ok _ =>
        match st.reserve id requestedIP with
        | (true, st') =>
          (Except.ok { ip := { ip := requestedIP, mask := a.conf.subnet.mask },
                       gateway := gw, routes := a.conf.routes }, st')
        | (false, st') =>
          (Except.error (AllocErr.addressUnavailable requestedIP a.conf.name), st')
  else
    a.searchLoop id gw (a.getSearchRange st).2 fuel (a.getSearchRange st).1 st

/-- `IPAllocator.Release`: release every address allocated to `id`. -/
def IPAllocator.release (a : IPAllocator) (id : String) (st : Store) :
    Except AllocErr Store :=
  Except.ok (st.releaseByID id)

/-- An operation of an allocate/release trace. -/
inductive Op where
  | get (id : String)
  | release (id : String)
  deriving Repr, DecidableEq

/-- Run a sequence of operations against the store. -/
def IPAllocator.runOps (a : IPAllocator) (fuel : Nat) : List Op → Store → Store
  | [], st => st
  | Op.get id :: ops, st => a.runOps fuel ops (a.get id fuel st).2
  | Op.release id :: ops, st =>
    match a.release id st with
    | Except.ok st' => a.runOps fuel ops st'
    | Except.error _ => a.runOps fuel ops st

/-- The allocator a configuration constructs (meaningful only when
`NewIPAllocator` succeeds). -/
def allocOf (conf : IPAMConfig) : IPAllocator :=
  match NewIPAllocator conf with
  | Except.ok a => a
  | Except.error _ => { start := [], endIP := [], conf := conf }

/-- The search range as the amended claim C3 describes it: the walk is
seeded from the marker iff the marker read succeeds, a marker is present
and the marker lies inside the subnet; when seeded it runs from
`nextIP marker` (the successor, or the range start when the marker equals
the end bound) and stops just before revisiting the marker; otherwise it
uses the allocator's own bounds. -/
def searchRangeSpec (a : IPAllocator) (st : Store) : IP × IP :=
  match st.lastReserved with
  | some m =>
    if st.lastReservedErr = false ∧ contains a.conf.subnet m = true
    then (a.nextIP m, m)
    else (a.start, a.endIP)
  | none => (a.start, a.endIP)

/- ### Concrete instances used by scenario theorems and witnesses -/

/-- The section 8 scenario configuration: subnet 10.0.0.0/30, nothing else
configured. -/
def confScenario : IPAMConfig :=
  { name := "t", subnet := { ip := [10, 0, 0, 0], mask := [255, 255, 255, 252] },
    rangeStart := [], rangeEnd := [], gateway := [], args := none, routes := [] }

/-- 10.0.0.0/30 with the subnet's network address as the requested IP. -/
def confReqNet : IPAMConfig :=
  { name := "t", subnet := { ip := [10, 0, 0, 0], mask := [255, 255, 255, 252] },
    rangeStart := [], rangeEnd := [], gateway := [],
    args := some { ip := [10, 0, 0, 0] }, routes := [] }

/-- 10.0.0.0/30 with a free, non-gateway requested IP. -/
def confReqOk : IPAMConfig :=
  { name := "t", subnet := { ip := [10, 0, 0, 0], mask := [255, 255, 255, 252] },
    rangeStart := [], rangeEnd := [], gateway := [],
    args := some { ip := [10, 0, 0, 2] }, routes := [] }

/-- 10.0.0.0/24 restricted to RangeStart 10.0.0.200. -/
def confStale : IPAMConfig :=
  { name := "t", subnet := { ip := [10, 0, 0, 0], mask := [255, 255, 255, 0] },
    rangeStart := [10, 0, 0, 200], rangeEnd := [], gateway := [],
    args := none, routes := [] }

/-- A store whose marker 10.0.0.5 is inside the subnet of `confStale` but
below its RangeStart. -/
def stStale : Store :=
  { reservations := [([10, 0, 0, 5], "x")], lastReserved := some [10, 0, 0, 5],
    lastReservedErr := false, log := [] }

/-- 10.0.0.0/30 with RangeStart above RangeEnd (both inside the subnet). -/
def confMisordered : IPAMConfig :=
  { name := "t", subnet := { ip := [10, 0, 0, 0], mask := [255, 255, 255, 252] },
    rangeStart := [10, 0, 0, 3], rangeEnd := [10, 0, 0, 1], gateway := [],
    args := none, routes := [] }

/-- A store whose marker read fails. -/
def stReadErr : Store :=
  { reservations := [], lastReserved := some [10, 0, 0, 2],
    lastReservedErr := true, log := [] }

/-- A 16-byte v4-mapped address for 10.0.0.0. -/
def ip16mapped : IP := [0, 0, 0, 0, 0, 0, 0, 0, 0, 0, 255, 255, 10, 0, 0, 0]

/-- A 16-byte all-ones mask. -/
def mask16 : List Nat := List.replicate 16 255

/- ### Invariant predicates used by trace theorems -/

/-- An address strictly above `lo` and at most `hi`, 4 bytes wide with
genuine byte values. -/
def goodAddr (lo hi : Nat) (x : IP) : Prop :=
  x.length = 4 ∧ validBytes x ∧ lo < bytesToNat x ∧ bytesToNat x ≤ hi

/-- Every address the store has seen — logged offer, reservation key or
marker — is a good address. -/
def StoreGood (lo hi : Nat) (st : Store) : Prop :=
  (∀ x ∈ st.log, goodAddr lo hi x) ∧
  (∀ r ∈ st.reservations, goodAddr lo hi r.1) ∧
  (∀ m, st.lastReserved = some m → goodAddr lo hi m)


/- ### Basic lemmas about the byte arithmetic -/

theorem length_natToBytes (w n : Nat) : (natToBytes w n).length = w := by
  induction w generalizing n with
  | zero => rfl
  | succ w ih => simp [natToBytes, ih]

theorem validBytes_natToBytes (w n : Nat) : validBytes (natToBytes w n) := by
  induction w generalizing n with
  | zero => intro b hb; simp [natToBytes] at hb
  | succ w ih =>
    intro b hb
    simp only [natToBytes, List.mem_cons] at hb
    rcases hb with h | h
    · subst h; exact Nat.mod_lt _ (by norm_num)
    · exact ih (n % 256 ^ w) b h

theorem bytesToNat_natToBytes (w n : Nat) :
    bytesToNat (natToBytes w n) = n % 256 ^ w := by
  induction w generalizing n with
  | zero => simp [natToBytes, bytesToNat, Nat.mod_one]
  | succ w ih =>
    simp only [natToBytes, bytesToNat, length_natToBytes, ih]
    rw [Nat.mod_mod_of_dvd _ dvd_rfl]
    rw [pow_succ, Nat.mod_mul]
    ring

theorem bytesToNat_lt (x : IP) (hv : validBytes x) :
    bytesToNat x < 256 ^ x.length := by
  induction x with
  | nil => simp [bytesToNat]
  | cons b rest ih =>
    have hb : b < 256 := hv b (List.mem_cons_self _ _)
    have hr : bytesToNat rest < 256 ^ rest.length :=
      ih (fun c hc => hv c (List.mem_cons_of_mem _ hc))
    simp only [bytesToNat, List.length_cons, pow_succ]
    calc b * 256 ^ rest.length + bytesToNat rest
        < b * 256 ^ rest.length + 256 ^ rest.length := Nat.add_lt_add_left hr _
      _ = (b + 1) * 256 ^ rest.length := by ring
      _ ≤ 256 * 256 ^ rest.length := Nat.mul_le_mul_right _ hb
      _ = 256 ^ rest.length * 256 := by ring

theorem natToBytes_bytesToNat (x : IP) (hv : validBytes x) :
    natToBytes x.length (bytesToNat x) = x := by
  induction x with
  | nil => rfl
  | cons b rest ih =>
    have hb : b < 256 := hv b (List.mem_cons_self _ _)
    have hv' : validBytes rest := fun c hc => hv c (List.mem_cons_of_mem _ hc)
    have hr : bytesToNat rest < 256 ^ rest.length := bytesToNat_lt rest hv'
    have hpos : 0 < 256 ^ rest.length := Nat.pos_pow_of_pos _ (by norm_num)
    simp only [List.length_cons, natToBytes, bytesToNat, List.cons.injEq]
    refine ⟨?_, ?_⟩
    · rw [Nat.mul_comm b, Nat.mul_add_div hpos, Nat.div_eq_of_lt hr,
        Nat.add_zero, Nat.mod_eq_of_lt hb]
    · rw [Nat.mul_comm b, Nat.mul_add_mod, Nat.mod_eq_of_lt hr]
      exact ih hv'

theorem bytesToNat_inj (x y : IP) (hlen : x.length = y.length)
    (hx : validBytes x) (hy : validBytes y)
    (h : bytesToNat x = bytesToNat y) : x = y := by
  have h1 := natToBytes_bytesToNat x hx
  have h2 := natToBytes_bytesToNat y hy
  rw [← h1, ← h2, hlen, h]

theorem length_nextAddr (x : IP) : (nextAddr x).length = x.length :=
  length_natToBytes _ _

theorem validBytes_nextAddr (x : IP) : validBytes (nextAddr x) :=
  validBytes_natToBytes _ _

theorem bytesToNat_nextAddr (x : IP) :
    bytesToNat (nextAddr x) = (bytesToNat x + 1) % 256 ^ x.length := by
  unfold nextAddr
  rw [bytesToNat_natToBytes, Nat.mod_mod_of_dvd _ dvd_rfl]

theorem bytesToNat_nextAddr_of_lt (x : IP) (h : bytesToNat x + 1 < 256 ^ x.length) :
    bytesToNat (nextAddr x) = bytesToNat x + 1 := by
  rw [bytesToNat_nextAddr, Nat.mod_eq_of_lt h]

theorem nextAddr_ne_nil (x : IP) (h : x ≠ []) : nextAddr x ≠ [] := by
  intro hc
  have := length_nextAddr x
  rw [hc] at this
  exact h (List.length_eq_zero.mp this.symm)

theorem beq_comm_list (a b : List Nat) : (a == b) = (b == a) := by
  by_cases h : a = b
  · subst h; rfl
  · have h1 : (a == b) = false := beq_eq_false_iff_ne.mpr h
    have h2 : (b == a) = false := beq_eq_false_iff_ne.mpr (Ne.symm h)
    rw [h1, h2]

theorem ipEqual_of_length_eq (a b : IP) (h : a.length = b.length) :
    ipEqual a b = (a == b) := by
  simp [ipEqual, h]

theorem ipEqual_comm (a b : IP) : ipEqual a b = ipEqual b a := by
  unfold ipEqual
  by_cases h : a.length = b.length
  · rw [if_pos h, if_pos h.symm]
    exact beq_comm_list a b
  · have h' : ¬ b.length = a.length := fun hc => h hc.symm
    rw [if_neg h, if_neg h']
    by_cases h46 : a.length = 4 ∧ b.length = 16
    · have hn : ¬ (b.length = 4 ∧ a.length = 16) := by omega
      rw [if_pos h46, if_neg hn, if_pos ⟨h46.2, h46.1⟩]
      apply decide_eq_decide.mpr
      constructor
      · rintro ⟨hp, he⟩; exact ⟨hp, he.symm⟩
      · rintro ⟨hp, he⟩; exact ⟨hp, he.symm⟩
    · rw [if_neg h46]
      by_cases h64 : a.length = 16 ∧ b.length = 4
      · rw [if_pos h64, if_pos ⟨h64.2, h64.1⟩]
        apply decide_eq_decide.mpr
        constructor
        · rintro ⟨hp, he⟩; exact ⟨hp, he.symm⟩
        · rintro ⟨hp, he⟩; exact ⟨hp, he.symm⟩
      · have h1 : ¬ (b.length = 4 ∧ a.length = 16) := by
          rintro ⟨x, y⟩; exact h64 ⟨y, x⟩
        have h2 : ¬ (b.length = 16 ∧ a.length = 4) := by
          rintro ⟨x, y⟩; exact h46 ⟨y, x⟩
        rw [if_neg h64, if_neg h1, if_neg h2]

theorem ipEqual_true_of_eq (a : IP) : ipEqual a a = true := by
  rw [ipEqual_of_length_eq a a rfl]
  exact beq_iff_eq.mpr rfl

theorem ipEqual_eq_false_of_ne (a b : IP) (hlen : a.length = b.length)
    (h : a ≠ b) : ipEqual a b = false := by
  rw [ipEqual_of_length_eq a b hlen]
  exact beq_eq_false_iff_ne.mpr h

theorem eq_of_ipEqual_of_length (a b : IP) (hlen : a.length = b.length)
    (h : ipEqual a b = true) : a = b := by
  rw [ipEqual_of_length_eq a b hlen] at h
  exact beq_iff_eq.mp h

/- ### Characterization of `networkRange` and `NewIPAllocator` -/

theorem networkRange_ok_ip_ne_nil (n : IPNet) (p : IP × IP)
    (h : networkRange n = Except.ok p) : n.ip ≠ [] := by
  intro hc
  unfold networkRange at h
  rw [if_pos hc] at h
  cases h

theorem networkRange_ok_of_ipv4 (n : IPNet) (h4 : n.ip.length = 4)
    (hm : n.mask.length = 4) :
    networkRange n = Except.ok (n.ip, orInv n.ip n.mask) := by
  have hne : n.ip ≠ [] := by
    intro hc; rw [hc] at h4; cases h4
  have hlen : n.ip.length = n.mask.length := by rw [h4, hm]
  simp [networkRange, normalizeIP, to4, h4, hne, hlen, hm]

theorem new_ok_elim (conf : IPAMConfig) (a : IPAllocator)
    (h : NewIPAllocator conf = Except.ok a) :
    ∃ s0 e0, networkRange conf.subnet = Except.ok (s0, e0) ∧
      (conf.rangeStart ≠ [] → contains conf.subnet conf.rangeStart = true) ∧
      (conf.rangeEnd ≠ [] → contains conf.subnet conf.rangeEnd = true) ∧
      a = { start := if conf.rangeStart ≠ [] then conf.rangeStart else nextAddr s0,
            endIP := if conf.rangeEnd ≠ [] then nextAddr conf.rangeEnd else e0,
            conf := conf } := by
  cases hnr : networkRange conf.subnet with
  | error e => simp [NewIPAllocator, hnr] at h
  | ok p =>
    obtain ⟨s0, e0⟩ := p
    refine ⟨s0, e0, rfl, ?_⟩
    by_cases h1 : conf.rangeStart ≠ []
    · by_cases hcs : contains conf.subnet conf.rangeStart = true
      · by_cases h2 : conf.rangeEnd ≠ []
        · by_cases hce : contains conf.subnet conf.rangeEnd = true
          · simp only [NewIPAllocator, hnr, validateRangeIP, h1, hcs, h2, hce,
              if_true, if_pos] at h
            refine ⟨fun _ => hcs, fun _ => hce, ?_⟩
            simpa [h1, h2] using h.symm
          · simp [NewIPAllocator, hnr, validateRangeIP, h1, hcs, h2, hce] at h
        · simp only [NewIPAllocator, hnr, validateRangeIP, h1, hcs, h2,
            if_true, if_pos, if_neg, not_not] at h
          refine ⟨fun _ => hcs, fun hk => absurd hk h2, ?_⟩
          simpa [h1, h2] using h.symm
      · simp [NewIPAllocator, hnr, validateRangeIP, h1, hcs] at h
    · by_cases h2 : conf.rangeEnd ≠ []
      · by_cases hce : contains conf.subnet conf.rangeEnd = true
        · simp only [NewIPAllocator, hnr, validateRangeIP, h1, h2, hce,
            if_true, if_pos, if_neg, not_not] at h
          refine ⟨fun hk => absurd hk h1, fun _ => hce, ?_⟩
          simpa [h1, h2] using h.symm
        · simp [NewIPAllocator, hnr, validateRangeIP, h1, h2, hce] at h
      · simp only [NewIPAllocator, hnr, validateRangeIP, h1, h2,
          if_neg, not_not] at h
        refine ⟨fun hk => absurd hk h1, fun hk => absurd hk h2, ?_⟩
        simpa [h1, h2] using h.symm

theorem new_ok_intro (conf : IPAMConfig) (s0 e0 : IP)
    (hnr : networkRange conf.subnet = Except.ok (s0, e0))
    (hrs : conf.rangeStart ≠ [] → contains conf.subnet conf.rangeStart = true)
    (hre : conf.rangeEnd ≠ [] → contains conf.subnet conf.rangeEnd = true) :
    NewIPAllocator conf = Except.ok
      { start := if conf.rangeStart ≠ [] then conf.rangeStart else nextAddr s0,
        endIP := if conf.rangeEnd ≠ [] then nextAddr conf.rangeEnd else e0,
        conf := conf } := by
  by_cases h1 : conf.rangeStart ≠ []
  · by_cases h2 : conf.rangeEnd ≠ []
    · simp [NewIPAllocator, hnr, validateRangeIP, h1, h2, hrs h1, hre h2]
    · simp [NewIPAllocator, hnr, validateRangeIP, h1, h2, hrs h1]
  · by_cases h2 : conf.rangeEnd ≠ []
    · simp [NewIPAllocator, hnr, validateRangeIP, h1, h2, hre h2]
    · simp [NewIPAllocator, hnr, validateRangeIP, h1, h2]

theorem new_ok_conf (conf : IPAMConfig) (a : IPAllocator)
    (h : NewIPAllocator conf = Except.ok a) : a.conf = conf := by
  obtain ⟨s0, e0, _, _, _, ha⟩ := new_ok_elim conf a h
  rw [ha]

theorem new_ok_subnet_ne_nil (conf : IPAMConfig) (a : IPAllocator)
    (h : NewIPAllocator conf = Except.ok a) : conf.subnet.ip ≠ [] := by
  obtain ⟨s0, e0, hnr, _⟩ := new_ok_elim conf a h
  exact networkRange_ok_ip_ne_nil _ _ hnr

theorem resolveGateway_ne_nil (conf : IPAMConfig) (h : conf.subnet.ip ≠ []) :
    resolveGateway conf ≠ [] := by
  unfold resolveGateway
  by_cases hg : conf.gateway = []
  · rw [if_pos hg]; exact nextAddr_ne_nil _ h
  · rw [if_neg hg]; exact hg

/- ### Claim C6: `networkRange` -/

/-- C6 (amended): `networkRange` returns the subnet's address as given as
`firstAddress` and, for `lastAddress`, each byte of the *normalized*
address (`To4` when the address is IPv4 or v4-mapped, else `To16`) OR-ed
with the bit-inverted mask byte; it fails exactly when the subnet has no
address, when the address is neither 4 nor 16 bytes, or when the
normalized address and the mask differ in byte width. -/
theorem networkRange_characterization (n : IPNet) :
    (∀ f l, networkRange n = Except.ok (f, l) →
      f = n.ip ∧ ∃ v, normalizeIP n.ip = some v ∧ v.length = n.mask.length ∧
        l = orInv v n.mask) ∧
    (networkRange n = Except.error AllocErr.missingSubnet ↔ n.ip = []) ∧
    (networkRange n = Except.error AllocErr.ipNotV4NorV6 ↔
      n.ip ≠ [] ∧ normalizeIP n.ip = none) ∧
    (networkRange n = Except.error AllocErr.versionMismatch ↔
      n.ip ≠ [] ∧ ∃ v, normalizeIP n.ip = some v ∧ v.length ≠ n.mask.length) := by
  by_cases hnil : n.ip = []
  · simp [networkRange, hnil]
  · cases hv : normalizeIP n.ip with
    | none => simp [networkRange, hnil, hv]
    | some v =>
      by_cases hlen : v.length = n.mask.length
      · simp [networkRange, hnil, hv, hlen]
      · simp [networkRange, hnil, hv, hlen]

/-- C6 counterexample: a 16-byte v4-mapped subnet address with a 16-byte
mask has address and mask of the same byte width and an address present,
yet `networkRange` fails (the address is normalized to 4 bytes first),
refuting the claim's exact failure condition. -/
theorem networkRange_v4mapped_cex :
    networkRange { ip := ip16mapped, mask := mask16 } =
      Except.error AllocErr.versionMismatch ∧
    ip16mapped ≠ [] ∧ ip16mapped.length = mask16.length := by
  refine ⟨rfl, by decide, by decide⟩

/-- Witness for `networkRange_characterization` at 10.0.0.0/30. -/
theorem networkRange_characterization_witness :
    ([10, 0, 0, 0] : IP) = ([10, 0, 0, 0] : IP) ∧
    ∃ v, normalizeIP ([10, 0, 0, 0] : IP) = some v ∧
      v.length = ([255, 255, 255, 252] : List Nat).length ∧
      ([10, 0, 0, 3] : IP) = orInv v [255, 255, 255, 252] :=
  (networkRange_characterization
      { ip := [10, 0, 0, 0], mask := [255, 255, 255, 252] }).1
    [10, 0, 0, 0] [10, 0, 0, 3] rfl

/- ### Claim C7: `NewIPAllocator` -/

/-- C7: `NewIPAllocator` freezes the effective range: start is the address
after the subnet's first address, replaced verbatim (not advanced) by
RangeStart when given; end is the subnet's all-host-bits address, replaced
by the successor of RangeEnd when given; construction succeeds exactly
when the subnet is valid and any given RangeStart/RangeEnd lies inside the
subnet.  The definition takes no store argument, so construction performs
no store operation. -/
theorem NewIPAllocator_freezes_range (conf : IPAMConfig) :
    (∀ a, NewIPAllocator conf = Except.ok a →
      a.conf = conf ∧
      ∃ f l, networkRange conf.subnet = Except.ok (f, l) ∧
        a.start = (if conf.rangeStart ≠ [] then conf.rangeStart else nextAddr f) ∧
        a.endIP = (if conf.rangeEnd ≠ [] then nextAddr conf.rangeEnd else l)) ∧
    ((∃ a, NewIPAllocator conf = Except.ok a) ↔
      (∃ p, networkRange conf.subnet = Except.ok p) ∧
      (conf.rangeStart ≠ [] → contains conf.subnet conf.rangeStart = true) ∧
      (conf.rangeEnd ≠ [] → contains conf.subnet conf.rangeEnd = true)) := by
  constructor
  · intro a ha
    obtain ⟨s0, e0, hnr, hrs, hre, hmk⟩ := new_ok_elim conf a ha
    subst hmk
    exact ⟨rfl, s0, e0, hnr, rfl, rfl⟩
  · constructor
    · rintro ⟨a, ha⟩
      obtain ⟨s0, e0, hnr, hrs, hre, hmk⟩ := new_ok_elim conf a ha
      exact ⟨⟨(s0, e0), hnr⟩, hrs, hre⟩
    · rintro ⟨⟨⟨s0, e0⟩, hnr⟩, hrs, hre⟩
      exact ⟨_, new_ok_intro conf s0 e0 hnr hrs hre⟩

/-- Witness: the range frozen for 10.0.0.0/30. -/
theorem NewIPAllocator_freezes_range_witness :
    (allocOf confScenario).conf = confScenario ∧
    ∃ f l, networkRange confScenario.subnet = Except.ok (f, l) ∧
      (allocOf confScenario).start =
        (if confScenario.rangeStart ≠ [] then confScenario.rangeStart
         else nextAddr f) ∧
      (allocOf confScenario).endIP =
        (if confScenario.rangeEnd ≠ [] then nextAddr confScenario.rangeEnd
         else l) :=
  (NewIPAllocator_freezes_range confScenario).1 (allocOf confScenario) rfl

/- ### Claim C3: the search range seeding -/

/-- C3 (amended): on every search, the walk is seeded from the store's
marker iff the marker read succeeds, a marker is present and the marker
lies inside the *subnet* (the code validates it against the subnet's
address and mask, not against the allocator's effective range); when
seeded, the walk starts at `nextIP marker` (the marker's successor, or the
range start when the marker equals the end bound) and stops just before
revisiting the marker; otherwise it uses the allocator's own bounds. -/
theorem getSearchRange_eq_spec (a : IPAllocator) (st : Store) :
    a.getSearchRange st = searchRangeSpec a st := by
  have heta : ({ ip := a.conf.subnet.ip, mask := a.conf.subnet.mask } : IPNet)
      = a.conf.subnet := rfl
  unfold IPAllocator.getSearchRange searchRangeSpec Store.lastReservedIP validateRangeIP
  rw [heta]
  cases hm : st.lastReserved with
  | none =>
    by_cases he : st.lastReservedErr <;> simp [he, hm]
  | some m =>
    by_cases he : st.lastReservedErr
    · simp [he, hm]
    · by_cases hc : contains a.conf.subnet m = true
      · simp [he, hm, hc]
      · simp [he, hm, hc]

/-- C3 counterexample: with RangeStart 10.0.0.200 the effective range is
[10.0.0.200, 10.0.0.255), yet the stale marker 10.0.0.5 — readable,
present, inside the subnet but outside the effective range — still seeds
the walk, so the search range is not the effective range's own bounds the
claim requires in this case. -/
theorem getSearchRange_stale_marker_cex :
    (allocOf confStale).start = [10, 0, 0, 200] ∧
    (allocOf confStale).endIP = [10, 0, 0, 255] ∧
    stStale.lastReservedIP = Except.ok (some [10, 0, 0, 5]) ∧
    ¬(bytesToNat (allocOf confStale).start ≤ bytesToNat [10, 0, 0, 5] ∧
      bytesToNat [10, 0, 0, 5] < bytesToNat (allocOf confStale).endIP) ∧
    (allocOf confStale).getSearchRange stStale = ([10, 0, 0, 6], [10, 0, 0, 5]) ∧
    (allocOf confStale).getSearchRange stStale ≠
      ((allocOf confStale).start, (allocOf confStale).endIP) := by
  refine ⟨rfl, rfl, rfl, by decide, rfl, by decide⟩

/- ### Claim C8: marker read failure -/

/-- C8: when the marker read fails, the request does not fail: the seed is
discarded and `Get` searches the effective range's own bounds. -/
theorem get_marker_read_failure (a : IPAllocator) (id : String) (fuel : Nat)
    (st : Store) (hreq : requestedIPOf a.conf = [])
    (herr : st.lastReservedErr = true) :
    a.getSearchRange st = (a.start, a.endIP) ∧
    a.get id fuel st =
      a.searchLoop id (resolveGateway a.conf) a.endIP fuel a.start st := by
  have hsr : a.getSearchRange st = (a.start, a.endIP) := by
    unfold IPAllocator.getSearchRange Store.lastReservedIP
    rw [herr]
    simp
  refine ⟨hsr, ?_⟩
  unfold IPAllocator.get
  rw [hreq]
  simp [hsr]

/-- Witness: the read-failure store at the /30 scenario allocator. -/
theorem get_marker_read_failure_witness :
    (allocOf confScenario).getSearchRange stReadErr =
      ((allocOf confScenario).start, (allocOf confScenario).endIP) :=
  (get_marker_read_failure (allocOf confScenario) "a" 5 stReadErr rfl rfl).1

/- ### Claim C9: release -/

/-- C9: `Release` removes every reservation record owned by the id and
returns no error even with zero matches; releasing twice returns no error
both times and the second call leaves the store unchanged. -/
theorem release_removes_all_idempotent (a : IPAllocator) (id : String) (st : Store) :
    a.release id st = Except.ok (st.releaseByID id) ∧
    (∀ r ∈ (st.releaseByID id).reservations, r.2 ≠ id) ∧
    (∀ r ∈ st.reservations, r.2 ≠ id → r ∈ (st.releaseByID id).reservations) ∧
    a.release id (st.releaseByID id) = Except.ok (st.releaseByID id) ∧
    (st.releaseByID id).releaseByID id = st.releaseByID id := by
  have hidem : (st.releaseByID id).releaseByID id = st.releaseByID id := by
    unfold Store.releaseByID
    simp [List.filter_filter, Bool.and_self]
  refine ⟨rfl, ?_, ?_, ?_, hidem⟩
  · intro r hr
    unfold Store.releaseByID at hr
    simp only [List.mem_filter, decide_eq_true_eq] at hr
    exact hr.2
  · intro r hr hne
    unfold Store.releaseByID
    simp only [List.mem_filter, decide_eq_true_eq]
    exact ⟨hr, hne⟩
  · show a.release id (st.releaseByID id) = Except.ok (st.releaseByID id)
    unfold IPAllocator.release
    rw [hidem]

/-- Witness: double release of owner `x` at a store holding one record. -/
theorem release_removes_all_idempotent_witness :
    (allocOf confScenario).release "x" stStale = Except.ok (stStale.releaseByID "x") ∧
    (∀ r ∈ (stStale.releaseByID "x").reservations, r.2 ≠ "x") ∧
    (∀ r ∈ stStale.reservations, r.2 ≠ "x" →
      r ∈ (stStale.releaseByID "x").reservations) ∧
    (allocOf confScenario).release "x" (stStale.releaseByID "x") =
      Except.ok (stStale.releaseByID "x") ∧
    (stStale.releaseByID "x").releaseByID "x" = stStale.releaseByID "x" :=
  release_removes_all_idempotent (allocOf confScenario) "x" stStale

/- ### Search loop lemmas -/

theorem searchLoop_ok_shape (a : IPAllocator) (id : String) (gw endB : IP) :
    ∀ fuel cur st res st',
      a.searchLoop id gw endB fuel cur st = (Except.ok res, st') →
      res.gateway = gw ∧ res.routes = a.conf.routes ∧
      res.ip.mask = a.conf.subnet.mask ∧
      (gw ≠ [] → ipEqual res.ip.ip gw = false) := by
  intro fuel
  induction fuel with
  | zero =>
    intro cur st res st' h
    simp [IPAllocator.searchLoop] at h
  | succ fuel ih =>
    intro cur st res st' h
    simp only [IPAllocator.searchLoop] at h
    by_cases h1 : ipEqual cur endB = true
    · rw [if_pos h1] at h
      simp at h
    · rw [if_neg h1] at h
      by_cases h2 : gw ≠ [] ∧ ipEqual cur gw = true
      · rw [if_pos h2] at h
        exact ih _ _ _ _ h
      · rw [if_neg h2] at h
        rcases hres : st.reserve id cur with ⟨b, st1⟩
        rw [hres] at h
        cases b
        · exact ih _ _ _ _ h
        · simp only [Prod.mk.injEq, Except.ok.injEq] at h
          obtain ⟨hmk, hst⟩ := h
          subst hmk
          refine ⟨rfl, rfl, rfl, fun hgw => ?_⟩
          cases hq : ipEqual cur gw
          · rfl
          · exact absurd ⟨hgw, hq⟩ h2

/-- C5: a successful `Get` never returns the resolved gateway address (the
configured gateway when set, else the successor of the subnet's address). -/
theorem get_never_returns_gateway (conf : IPAMConfig) (a : IPAllocator)
    (id : String) (fuel : Nat) (st : Store) (res : IPConfig) (st' : Store)
    (hA : NewIPAllocator conf = Except.ok a)
    (hget : a.get id fuel st = (Except.ok res, st')) :
    res.gateway = resolveGateway conf ∧
    ipEqual res.ip.ip (resolveGateway conf) = false ∧
    ipEqual (resolveGateway conf) res.ip.ip = false := by
  have hconf : a.conf = conf := new_ok_conf conf a hA
  have hgw_ne : resolveGateway conf ≠ [] :=
    resolveGateway_ne_nil conf (new_ok_subnet_ne_nil conf a hA)
  unfold IPAllocator.get at hget
  rw [hconf] at hget
  by_cases hreq : requestedIPOf conf ≠ []
  · rw [if_pos hreq] at hget
    by_cases h2 : resolveGateway conf ≠ [] ∧
        ipEqual (resolveGateway conf) (requestedIPOf conf) = true
    · rw [if_pos h2] at hget
      simp at hget
    · rw [if_neg h2] at hget
      unfold validateRangeIP at hget
      by_cases hc : contains { ip := conf.subnet.ip, mask := conf.subnet.mask }
          (requestedIPOf conf) = true
      · rw [if_pos hc] at hget
        rcases hres : st.reserve id (requestedIPOf conf) with ⟨b, st1⟩
        rw [hres] at hget
        cases b
        · simp at hget
        · simp only [Prod.mk.injEq, Except.ok.injEq] at hget
          obtain ⟨hmk, hst⟩ := hget
          subst hmk
          have hq : ipEqual (resolveGateway conf) (requestedIPOf conf) = false := by
            cases hqq : ipEqual (resolveGateway conf) (requestedIPOf conf)
            · rfl
            · exact absurd ⟨hgw_ne, hqq⟩ h2
          exact ⟨rfl, by rw [ipEqual_comm]; exact hq, hq⟩
      · rw [if_neg hc] at hget
        simp at hget
  · rw [if_neg hreq] at hget
    have hs := searchLoop_ok_shape a id (resolveGateway conf)
      (a.getSearchRange st).2 fuel (a.getSearchRange st).1 st res st' hget
    refine ⟨hs.1, hs.2.2.2 hgw_ne, ?_⟩
    rw [ipEqual_comm]
    exact hs.2.2.2 hgw_ne

/-- Witness: the first scenario allocation does not return the gateway. -/
theorem get_never_returns_gateway_witness :
    ([10, 0, 0, 1] : IP) = resolveGateway confScenario ∧
    ipEqual [10, 0, 0, 2] (resolveGateway confScenario) = false ∧
    ipEqual (resolveGateway confScenario) [10, 0, 0, 2] = false :=
  get_never_returns_gateway confScenario (allocOf confScenario) "a" 10 emptyStore
    { ip := { ip := [10, 0, 0, 2], mask := [255, 255, 255, 252] },
      gateway := [10, 0, 0, 1], routes := [] }
    { reservations := [([10, 0, 0, 2], "a")], lastReserved := some [10, 0, 0, 2],
      lastReservedErr := false, log := [[10, 0, 0, 2]] }
    rfl rfl

theorem reserve_snd_log (st : Store) (id : String) (i : IP) :
    (st.reserve id i).2.log = i :: st.log := by
  unfold Store.reserve
  by_cases hany : st.reservations.any (fun r => ipEqual r.1 i) = true
  · rw [if_pos hany]
  · rw [if_neg hany]

theorem searchLoop_end_log (a : IPAllocator) (id : String) (gw : IP)
    (hev : validBytes a.endIP) :
    ∀ fuel cur st, cur.length = a.endIP.length → validBytes cur →
      bytesToNat cur ≤ bytesToNat a.endIP →
      ∃ delta,
        (a.searchLoop id gw a.endIP fuel cur st).2.log = delta ++ st.log ∧
        (∀ x ∈ delta, bytesToNat cur ≤ bytesToNat x ∧
          bytesToNat x < bytesToNat a.endIP ∧
          ipEqual x a.endIP = false ∧ a.nextIP x = nextAddr x) ∧
        List.Pairwise (fun x y => bytesToNat y < bytesToNat x) delta := by
  intro fuel
  induction fuel with
  | zero =>
    intro cur st hl hv hle
    exact ⟨[], rfl, by simp, List.Pairwise.nil⟩
  | succ fuel ih =>
    intro cur st hl hv hle
    simp only [IPAllocator.searchLoop]
    by_cases h1 : ipEqual cur a.endIP = true
    · rw [if_pos h1]
      exact ⟨[], rfl, by simp, List.Pairwise.nil⟩
    · rw [if_neg h1]
      have hne : cur ≠ a.endIP := by
        intro hc
        rw [hc] at h1
        exact h1 (ipEqual_true_of_eq a.endIP)
    -- the candidate is strictly below the end bound
      have hlt : bytesToNat cur < bytesToNat a.endIP := by
        rcases Nat.lt_or_ge (bytesToNat cur) (bytesToNat a.endIP) with h | h
        · exact h
        · exact absurd (bytesToNat_inj cur a.endIP hl hv hev (le_antisymm hle h)) hne
      have hcurf : ipEqual cur a.endIP = false := by
        cases hq : ipEqual cur a.endIP
        · rfl
        · exact absurd hq h1
      have hnip : a.nextIP cur = nextAddr cur := by
        unfold IPAllocator.nextIP
        rw [if_neg h1]
      have hendlt : bytesToNat a.endIP < 256 ^ a.endIP.length := bytesToNat_lt a.endIP hev
      have hn1 : bytesToNat (nextAddr cur) = bytesToNat cur + 1 := by
        apply bytesToNat_nextAddr_of_lt
        rw [hl]
        omega
      have hlen' : (nextAddr cur).length = a.endIP.length := by
        rw [length_nextAddr, hl]
      have hv' : validBytes (nextAddr cur) := validBytes_nextAddr cur
      have hle' : bytesToNat (nextAddr cur) ≤ bytesToNat a.endIP := by omega
      by_cases h2 : gw ≠ [] ∧ ipEqual cur gw = true
      · rw [if_pos h2, hnip]
        obtain ⟨delta, hdl, hdb, hdp⟩ := ih (nextAddr cur) st hlen' hv' hle'
        refine ⟨delta, hdl, fun x hx => ?_, hdp⟩
        have hb := hdb x hx
        exact ⟨by omega, hb.2⟩
      · rw [if_neg h2]
        rcases hres : st.reserve id cur with ⟨b, st1⟩
        have hlog1 : st1.log = cur :: st.log := by
          have := reserve_snd_log st id cur
          rw [hres] at this
          exact this
        cases b
        · rw [hnip]
          obtain ⟨delta, hdl, hdb, hdp⟩ := ih (nextAddr cur) st1 hlen' hv' hle'
          refine ⟨delta ++ [cur], ?_, ?_, ?_⟩
          · rw [hdl, hlog1, List.append_assoc]
            rfl
          · intro x hx
            rcases List.mem_append.mp hx with h | h
            · have hb := hdb x h
              exact ⟨by omega, hb.2⟩
            · have hxc : x = cur := by simpa using h
              subst hxc
              exact ⟨le_refl _, hlt, hcurf, hnip⟩
          · rw [List.pairwise_append]
            refine ⟨hdp, by simp, ?_⟩
            intro x hx y hy
            have hb := hdb x hx
            have hyc : y = cur := by simpa using hy
            subst hyc
            omega
        · refine ⟨[cur], by simpa using hlog1, ?_, by simp⟩
          intro x hx
          have hxc : x = cur := by simpa using hx
          subst hxc
          exact ⟨le_refl _, hlt, hcurf, hnip⟩

/-- C10 (amended): whenever the search is not seeded from the marker
(marker absent, unreadable, or failing the subnet validation) and the
allocator's effective range is well ordered (`start` at most `end` as
fixed-width integers of the same width), every address `Get` passes to
`Store.Reserve` lies in the half-open interval [start, end) and the offers
are strictly increasing in chronological order (the log lists newest
first); no offered candidate equals the `end` boundary, and on every
offered candidate the wraparound branch of `nextIP` is not taken
(`nextIP` is plain `nextAddr` there). -/
theorem get_unseeded_walk_in_interval (a : IPAllocator) (id : String)
    (fuel : Nat) (st : Store)
    (hreq : requestedIPOf a.conf = [])
    (hlen : a.start.length = a.endIP.length) (hsv : validBytes a.start)
    (hev : validBytes a.endIP)
    (hord : bytesToNat a.start ≤ bytesToNat a.endIP)
    (hunseed : st.lastReservedErr = true ∨ st.lastReserved = none ∨
      ∀ m, st.lastReserved = some m → contains a.conf.subnet m = false) :
    ∃ delta,
      (a.get id fuel st).2.log = delta ++ st.log ∧
      (∀ x ∈ delta,
        bytesToNat a.start ≤ bytesToNat x ∧
        bytesToNat x < bytesToNat a.endIP ∧
        ipEqual x a.endIP = false ∧ a.nextIP x = nextAddr x) ∧
      List.Pairwise (fun x y => bytesToNat y < bytesToNat x) delta := by
  have heta : ({ ip := a.conf.subnet.ip, mask := a.conf.subnet.mask } : IPNet)
      = a.conf.subnet := rfl
  have hsr : a.getSearchRange st = (a.start, a.endIP) := by
    unfold IPAllocator.getSearchRange Store.lastReservedIP validateRangeIP
    rw [heta]
    by_cases he : st.lastReservedErr = true
    · simp [he]
    · rcases hunseed with h | h | h
      · exact absurd h he
      · simp [he, h]
      · cases hm : st.lastReserved with
        | none => simp [he, hm]
        | some m => simp [he, hm, h m hm]
  unfold IPAllocator.get
  rw [hreq, if_neg (by simp), hsr]
  exact searchLoop_end_log a id (resolveGateway a.conf) hev fuel a.start st
    hlen hsv hord

/-- Witness: the unseeded walk over [10.0.0.1, 10.0.0.3) of the scenario
allocator stays inside the interval. -/
theorem get_unseeded_walk_in_interval_witness :
    ∃ delta,
      ((allocOf confScenario).get "a" 10 emptyStore).2.log =
        delta ++ emptyStore.log ∧
      (∀ x ∈ delta,
        bytesToNat (allocOf confScenario).start ≤ bytesToNat x ∧
        bytesToNat x < bytesToNat (allocOf confScenario).endIP ∧
        ipEqual x (allocOf confScenario).endIP = false ∧
        (allocOf confScenario).nextIP x = nextAddr x) ∧
      List.Pairwise (fun x y => bytesToNat y < bytesToNat x) delta :=
  get_unseeded_walk_in_interval (allocOf confScenario) "a" 10 emptyStore
    rfl rfl (by decide) (by decide) (by decide) (Or.inr (Or.inl rfl))

/- ### Trace invariant: good addresses only -/

theorem validBytes_orInv : ∀ (s m : List Nat), validBytes s → validBytes m →
    validBytes (orInv s m) := by
  intro s
  induction s with
  | nil => intro m _ _ b hb; simp [orInv] at hb
  | cons a s ih =>
    intro m hs hm b hb
    cases m with
    | nil => simp [orInv] at hb
    | cons c m' =>
      simp only [orInv, List.zip_cons_cons, List.map_cons, List.mem_cons] at hb
      rcases hb with h | h
      · subst h
        have h1 : a < 256 := hs a (List.mem_cons_self _ _)
        have h2 : c < 256 := hm c (List.mem_cons_self _ _)
        have h256 : (256 : Nat) = 2 ^ 8 := by norm_num
        rw [h256]
        exact Nat.bitwise_lt (by omega) (Nat.bitwise_lt (by omega) (by norm_num))
      · exact ih m' (fun x hx => hs x (List.mem_cons_of_mem _ hx))
          (fun x hx => hm x (List.mem_cons_of_mem _ hx)) b h

theorem length_orInv (s m : List Nat) :
    (orInv s m).length = min s.length m.length := by
  simp [orInv, List.length_zip]

theorem reserve_storeGood (lo hi : Nat) (st : Store) (id : String) (i : IP)
    (hgood : goodAddr lo hi i) (hst : StoreGood lo hi st) :
    StoreGood lo hi (st.reserve id i).2 := by
  obtain ⟨hl, hr, hm⟩ := hst
  unfold Store.reserve
  by_cases hany : st.reservations.any (fun r => ipEqual r.1 i) = true
  · rw [if_pos hany]
    refine ⟨fun x hx => ?_, hr, hm⟩
    rcases List.mem_cons.mp hx with h | h
    · exact h ▸ hgood
    · exact hl x h
  · rw [if_neg hany]
    refine ⟨fun x hx => ?_, fun r hrr => ?_, fun m hmm => ?_⟩
    · rcases List.mem_cons.mp hx with h | h
      · exact h ▸ hgood
      · exact hl x h
    · rcases List.mem_cons.mp hrr with h | h
      · rw [h]
        exact hgood
      · exact hr r h
    · simp only [Option.some.injEq] at hmm
      exact hmm ▸ hgood

theorem nextIP_good (a : IPAllocator) (lo hi : Nat)
    (hstart : goodAddr lo hi a.start)
    (hel : a.endIP.length = 4) (hev : validBytes a.endIP)
    (hhi : bytesToNat a.endIP = hi)
    (c : IP) (hc : goodAddr lo hi c) : goodAddr lo hi (a.nextIP c) := by
  obtain ⟨hc4, hcv, hclo, hchi⟩ := hc
  have hhilt : hi < 256 ^ 4 := by
    rw [← hhi]
    have := bytesToNat_lt a.endIP hev
    rwa [hel] at this
  unfold IPAllocator.nextIP
  by_cases h1 : ipEqual c a.endIP = true
  · rw [if_pos h1]
    exact hstart
  · rw [if_neg h1]
    have hne : bytesToNat c ≠ bytesToNat a.endIP := by
      intro heq
      have := bytesToNat_inj c a.endIP (hc4.trans hel.symm) hcv hev heq
      rw [this] at h1
      exact h1 (ipEqual_true_of_eq a.endIP)
    have hlt : bytesToNat c < hi := by omega
    have hn1 : bytesToNat (nextAddr c) = bytesToNat c + 1 := by
      apply bytesToNat_nextAddr_of_lt
      rw [hc4]
      omega
    exact ⟨by rw [length_nextAddr, hc4], validBytes_nextAddr c, by omega, by omega⟩

theorem getSearchRange_fst_good (a : IPAllocator) (lo hi : Nat) (st : Store)
    (hstart : goodAddr lo hi a.start)
    (hel : a.endIP.length = 4) (hev : validBytes a.endIP)
    (hhi : bytesToNat a.endIP = hi)
    (hst : StoreGood lo hi st) :
    goodAddr lo hi (a.getSearchRange st).1 := by
  unfold IPAllocator.getSearchRange Store.lastReservedIP validateRangeIP
  by_cases he : st.lastReservedErr = true
  · simp [he]
    exact hstart
  · cases hm : st.lastReserved with
    | none =>
      simp [he, hm]
      exact hstart
    | some m =>
      have hmg : goodAddr lo hi m := hst.2.2 m hm
      by_cases hc : contains { ip := a.conf.subnet.ip, mask := a.conf.subnet.mask } m = true
      · simp [he, hm, hc]
        exact nextIP_good a lo hi hstart hel hev hhi m hmg
      · simp [he, hm, hc]
        exact hstart

theorem searchLoop_storeGood (a : IPAllocator) (id : String) (gw endB : IP)
    (lo hi : Nat) (hstart : goodAddr lo hi a.start)
    (hel : a.endIP.length = 4) (hev : validBytes a.endIP)
    (hhi : bytesToNat a.endIP = hi) :
    ∀ fuel cur st, goodAddr lo hi cur → StoreGood lo hi st →
      StoreGood lo hi (a.searchLoop id gw endB fuel cur st).2 := by
  intro fuel
  induction fuel with
  | zero =>
    intro cur st _ hst
    simp only [IPAllocator.searchLoop]
    exact hst
  | succ fuel ih =>
    intro cur st hc hst
    simp only [IPAllocator.searchLoop]
    by_cases h1 : ipEqual cur endB = true
    · rw [if_pos h1]
      exact hst
    · rw [if_neg h1]
      by_cases h2 : gw ≠ [] ∧ ipEqual cur gw = true
      · rw [if_pos h2]
        exact ih (a.nextIP cur) st (nextIP_good a lo hi hstart hel hev hhi cur hc) hst
      · rw [if_neg h2]
        rcases hres : st.reserve id cur with ⟨b, st1⟩
        have hst1 : StoreGood lo hi st1 := by
          have := reserve_storeGood lo hi st id cur hc hst
          rwa [hres] at this
        cases b
        · exact ih (a.nextIP cur) st1 (nextIP_good a lo hi hstart hel hev hhi cur hc) hst1
        · exact hst1

theorem get_storeGood (a : IPAllocator) (id : String) (fuel : Nat) (st : Store)
    (lo hi : Nat) (hreq : requestedIPOf a.conf = [])
    (hstart : goodAddr lo hi a.start)
    (hel : a.endIP.length = 4) (hev : validBytes a.endIP)
    (hhi : bytesToNat a.endIP = hi)
    (hst : StoreGood lo hi st) :
    StoreGood lo hi (a.get id fuel st).2 := by
  unfold IPAllocator.get
  rw [hreq, if_neg (by simp)]
  exact searchLoop_storeGood a id (resolveGateway a.conf) (a.getSearchRange st).2
    lo hi hstart hel hev hhi fuel (a.getSearchRange st).1 st
    (getSearchRange_fst_good a lo hi st hstart hel hev hhi hst) hst

theorem releaseByID_storeGood (lo hi : Nat) (st : Store) (id : String)
    (hst : StoreGood lo hi st) : StoreGood lo hi (st.releaseByID id) := by
  obtain ⟨hl, hr, hm⟩ := hst
  exact ⟨hl, fun r hrr => hr r (List.mem_of_mem_filter hrr), hm⟩

theorem runOps_storeGood (a : IPAllocator) (fuel : Nat) (lo hi : Nat)
    (hreq : requestedIPOf a.conf = [])
    (hstart : goodAddr lo hi a.start)
    (hel : a.endIP.length = 4) (hev : validBytes a.endIP)
    (hhi : bytesToNat a.endIP = hi) :
    ∀ ops st, StoreGood lo hi st → StoreGood lo hi (a.runOps fuel ops st) := by
  intro ops
  induction ops with
  | nil =>
    intro st h
    exact h
  | cons op ops ih =>
    intro st h
    cases op with
    | get id =>
      simp only [IPAllocator.runOps]
      exact ih _ (get_storeGood a id fuel st lo hi hreq hstart hel hev hhi h)
    | release id =>
      simp only [IPAllocator.runOps, IPAllocator.release]
      exact ih _ (releaseByID_storeGood lo hi st id h)

/- ### Claim C2: the network address is never reserved -/

/-- C2 (amended): for IPv4 configurations with no RangeStart, RangeEnd or
RequestedIP whose subnet address has at least one host bit clear, over
every sequence of `Get` and `Release` operations starting from an empty
store, the subnet's network address is never passed to `Store.Reserve` and
hence never held in a Reservation Record.  (The broadcast/all-ones address
is not excluded: a marker-seeded walk can offer it — see the scenario
theorem for claim C1 — and a RangeStart or RequestedIP equal to the
network address is accepted, which is what the counterexample shows.) -/
theorem network_address_never_reserved (conf : IPAMConfig) (a : IPAllocator)
    (ops : List Op) (fuel : Nat)
    (hA : NewIPAllocator conf = Except.ok a)
    (h4 : conf.subnet.ip.length = 4) (hv : validBytes conf.subnet.ip)
    (hm4 : conf.subnet.mask.length = 4) (hmv : validBytes conf.subnet.mask)
    (hrs : conf.rangeStart = []) (hre : conf.rangeEnd = [])
    (hreq : requestedIPOf conf = [])
    (hhost : bytesToNat conf.subnet.ip <
      bytesToNat (orInv conf.subnet.ip conf.subnet.mask)) :
    (∀ x ∈ (a.runOps fuel ops emptyStore).log,
      x ≠ conf.subnet.ip ∧ ipEqual x conf.subnet.ip = false) ∧
    (∀ r ∈ (a.runOps fuel ops emptyStore).reservations,
      r.1 ≠ conf.subnet.ip ∧ ipEqual r.1 conf.subnet.ip = false) := by
  obtain ⟨s0, e0, hnr, _, _, hmk⟩ := new_ok_elim conf a hA
  have hnr2 := networkRange_ok_of_ipv4 conf.subnet h4 hm4
  rw [hnr] at hnr2
  simp only [Except.ok.injEq, Prod.mk.injEq] at hnr2
  obtain ⟨hs0, he0⟩ := hnr2
  subst hs0
  subst he0
  rw [hrs, hre] at hmk
  simp only [ne_eq, not_true_eq_false, if_false, ite_false] at hmk
  subst hmk
  have horL : (orInv conf.subnet.ip conf.subnet.mask).length = 4 := by
    rw [length_orInv, h4, hm4]
    exact min_self 4
  have horV : validBytes (orInv conf.subnet.ip conf.subnet.mask) :=
    validBytes_orInv _ _ hv hmv
  have hhilt : bytesToNat (orInv conf.subnet.ip conf.subnet.mask) < 256 ^ 4 := by
    have := bytesToNat_lt _ horV
    rwa [horL] at this
  have hstart : goodAddr (bytesToNat conf.subnet.ip)
      (bytesToNat (orInv conf.subnet.ip conf.subnet.mask))
      (nextAddr conf.subnet.ip) := by
    have hn1 : bytesToNat (nextAddr conf.subnet.ip) = bytesToNat conf.subnet.ip + 1 := by
      apply bytesToNat_nextAddr_of_lt
      rw [h4]
      omega
    exact ⟨by rw [length_nextAddr, h4], validBytes_nextAddr _, by omega, by omega⟩
  have hemp : StoreGood (bytesToNat conf.subnet.ip)
      (bytesToNat (orInv conf.subnet.ip conf.subnet.mask)) emptyStore := by
    refine ⟨?_, ?_, ?_⟩
    · intro x hx
      simp [emptyStore] at hx
    · intro r hr
      simp [emptyStore] at hr
    · intro m hm
      simp [emptyStore] at hm
  have final := runOps_storeGood
    { start := nextAddr conf.subnet.ip,
      endIP := orInv conf.subnet.ip conf.subnet.mask, conf := conf } fuel
    (bytesToNat conf.subnet.ip)
    (bytesToNat (orInv conf.subnet.ip conf.subnet.mask))
    hreq hstart horL horV rfl ops emptyStore hemp
  have conclude : ∀ x, goodAddr (bytesToNat conf.subnet.ip)
      (bytesToNat (orInv conf.subnet.ip conf.subnet.mask)) x →
      x ≠ conf.subnet.ip ∧ ipEqual x conf.subnet.ip = false := by
    intro x hx
    obtain ⟨hx4, hxv, hxlo, hxhi⟩ := hx
    have hne : x ≠ conf.subnet.ip := by
      intro heq
      rw [heq] at hxlo
      exact lt_irrefl _ hxlo
    exact ⟨hne, ipEqual_eq_false_of_ne x conf.subnet.ip (by rw [hx4, h4]) hne⟩
  exact ⟨fun x hx => conclude x (final.1 x hx),
    fun r hr => conclude r.1 (final.2.1 r hr)⟩

/-- C2 counterexample: the claim quantifies over every valid configuration,
but requesting the subnet's network address is accepted — the requested-IP
path validates only against the gateway and subnet membership — so
10.0.0.0 is passed to `Reserve` and ends up held in a Reservation
Record. -/
theorem requested_network_address_reserved_cex :
    NewIPAllocator confReqNet = Except.ok (allocOf confReqNet) ∧
    (allocOf confReqNet).get "x" 10 emptyStore =
      (Except.ok { ip := { ip := [10, 0, 0, 0], mask := [255, 255, 255, 252] },
                   gateway := [10, 0, 0, 1], routes := [] },
       { reservations := [([10, 0, 0, 0], "x")], lastReserved := some [10, 0, 0, 0],
         lastReservedErr := false, log := [[10, 0, 0, 0]] }) ∧
    ([10, 0, 0, 0] : IP) = confReqNet.subnet.ip :=
  ⟨rfl, rfl, rfl⟩

/-- Witness: a three-operation trace on the /30 scenario configuration
never offers the network address. -/
theorem network_address_never_reserved_witness :
    (∀ x ∈ ((allocOf confScenario).runOps 10
        [Op.get "a", Op.get "b", Op.release "a"] emptyStore).log,
      x ≠ confScenario.subnet.ip ∧ ipEqual x confScenario.subnet.ip = false) ∧
    (∀ r ∈ ((allocOf confScenario).runOps 10
        [Op.get "a", Op.get "b", Op.release "a"] emptyStore).reservations,
      r.1 ≠ confScenario.subnet.ip ∧ ipEqual r.1 confScenario.subnet.ip = false) :=
  network_address_never_reserved confScenario (allocOf confScenario)
    [Op.get "a", Op.get "b", Op.release "a"] 10 rfl rfl (by decide) rfl
    (by decide) rfl rfl rfl (by decide)

/- ### Claim C1: the section 8 scenario -/

/-- C1: the scenario run on the code.  The first `Get` returns 10.0.0.2 as
the claim states; but the second `Get` does not fail with `poolExhausted`:
the marker-seeded walk starts at `nextIP 10.0.0.2 = 10.0.0.3` — the
subnet's broadcast address, which the range construction meant to exclude
as the exclusive `end` bound — finds it unreserved and allocates it. -/
theorem scenario_second_get_allocates_broadcast :
    (allocOf confScenario).get "a" 10 emptyStore =
      (Except.ok { ip := { ip := [10, 0, 0, 2], mask := [255, 255, 255, 252] },
                   gateway := [10, 0, 0, 1], routes := [] },
       { reservations := [([10, 0, 0, 2], "a")], lastReserved := some [10, 0, 0, 2],
         lastReservedErr := false, log := [[10, 0, 0, 2]] }) ∧
    (allocOf confScenario).get "b" 10
        { reservations := [([10, 0, 0, 2], "a")], lastReserved := some [10, 0, 0, 2],
          lastReservedErr := false, log := [[10, 0, 0, 2]] } =
      (Except.ok { ip := { ip := [10, 0, 0, 3], mask := [255, 255, 255, 252] },
                   gateway := [10, 0, 0, 1], routes := [] },
       { reservations := [([10, 0, 0, 3], "b"), ([10, 0, 0, 2], "a")],
         lastReserved := some [10, 0, 0, 3], lastReservedErr := false,
         log := [[10, 0, 0, 3], [10, 0, 0, 2]] }) ∧
    (allocOf confScenario).endIP = [10, 0, 0, 3] :=
  ⟨rfl, rfl, rfl⟩

/- ### Claim C10 counterexample -/

/-- C10 counterexample: with RangeStart 10.0.0.3 above RangeEnd 10.0.0.1
(both inside the subnet, so construction succeeds), the unseeded walk's
first candidate 10.0.0.3 is offered to `Reserve` and allocated although
the half-open interval [start, end) = [10.0.0.3, 10.0.0.2) is empty. -/
theorem misordered_range_walk_cex :
    NewIPAllocator confMisordered = Except.ok (allocOf confMisordered) ∧
    emptyStore.lastReserved = none ∧
    (allocOf confMisordered).start = [10, 0, 0, 3] ∧
    (allocOf confMisordered).endIP = [10, 0, 0, 2] ∧
    ((allocOf confMisordered).get "x" 10 emptyStore).2.log = [[10, 0, 0, 3]] ∧
    ¬(bytesToNat (allocOf confMisordered).start ≤ bytesToNat [10, 0, 0, 3] ∧
      bytesToNat [10, 0, 0, 3] < bytesToNat (allocOf confMisordered).endIP) :=
  ⟨rfl, rfl, rfl, rfl, rfl, by decide⟩

/- ### Claim C4: the requested-IP path -/

/-- C4: with a RequestedIP configured, `Get` never falls back to a search:
it fails when the requested address equals the resolved gateway; fails
when the address is not inside the subnet; otherwise it calls
`Store.Reserve` exactly once (the ghost log grows by exactly the requested
address) and returns the requested address iff that reserve succeeds; when
the address is already owned it fails with `addressUnavailable` naming the
subnet, and the store's reservations and marker are unchanged. -/
theorem get_requested_all_or_nothing (conf : IPAMConfig) (a : IPAllocator)
    (id : String) (fuel : Nat) (st : Store)
    (hA : NewIPAllocator conf = Except.ok a)
    (hreq : requestedIPOf conf ≠ []) :
    (ipEqual (resolveGateway conf) (requestedIPOf conf) = true →
      a.get id fuel st = (Except.error AllocErr.requestedEqualsGateway, st)) ∧
    (ipEqual (resolveGateway conf) (requestedIPOf conf) = false →
      contains conf.subnet (requestedIPOf conf) = false →
      a.get id fuel st = (Except.error AllocErr.notInNetwork, st)) ∧
    (ipEqual (resolveGateway conf) (requestedIPOf conf) = false →
      contains conf.subnet (requestedIPOf conf) = true →
      a.get id fuel st =
        (if (st.reserve id (requestedIPOf conf)).1 then
          (Except.ok { ip := { ip := requestedIPOf conf, mask := conf.subnet.mask },
                       gateway := resolveGateway conf, routes := conf.routes },
           (st.reserve id (requestedIPOf conf)).2)
         else
          (Except.error (AllocErr.addressUnavailable (requestedIPOf conf) conf.name),
           (st.reserve id (requestedIPOf conf)).2))) ∧
    ((st.reserve id (requestedIPOf conf)).2.log = requestedIPOf conf :: st.log) ∧
    ((st.reserve id (requestedIPOf conf)).1 = false →
      (st.reserve id (requestedIPOf conf)).2.reservations = st.reservations ∧
      (st.reserve id (requestedIPOf conf)).2.lastReserved = st.lastReserved) := by
  have hconf : a.conf = conf := new_ok_conf conf a hA
  have hgw_ne : resolveGateway conf ≠ [] :=
    resolveGateway_ne_nil conf (new_ok_subnet_ne_nil conf a hA)
  have heta : ({ ip := conf.subnet.ip, mask := conf.subnet.mask } : IPNet)
      = conf.subnet := rfl
  refine ⟨?_, ?_, ?_, ?_, ?_⟩
  · intro hq
    unfold IPAllocator.get
    rw [hconf, if_pos hreq, if_pos ⟨hgw_ne, hq⟩]
  · intro hq hc
    unfold IPAllocator.get validateRangeIP
    rw [hconf, if_pos hreq,
      if_neg (by rintro ⟨_, ht⟩; rw [hq] at ht; cases ht), heta,
      if_neg (by rw [hc]; simp)]
  · intro hq hc
    unfold IPAllocator.get validateRangeIP
    rw [hconf, if_pos hreq,
      if_neg (by rintro ⟨_, ht⟩; rw [hq] at ht; cases ht), heta, if_pos hc]
    rcases hres : st.reserve id (requestedIPOf conf) with ⟨b, st1⟩
    cases b
    · rfl
    · rfl
  · exact reserve_snd_log st id (requestedIPOf conf)
  · intro h1
    unfold Store.reserve at h1 ⊢
    by_cases hany :
        st.reservations.any (fun r => ipEqual r.1 (requestedIPOf conf)) = true
    · rw [if_pos hany]
      exact ⟨rfl, rfl⟩
    · rw [if_neg hany] at h1
      simp at h1

/-- Witness: requesting the free address 10.0.0.2 in 10.0.0.0/30 reserves
exactly it. -/
theorem get_requested_all_or_nothing_witness :
    (allocOf confReqOk).get "x" 5 emptyStore =
      (Except.ok { ip := { ip := [10, 0, 0, 2], mask := [255, 255, 255, 252] },
                   gateway := [10, 0, 0, 1], routes := [] },
       { reservations := [([10, 0, 0, 2], "x")], lastReserved := some [10, 0, 0, 2],
         lastReservedErr := false, log := [[10, 0, 0, 2]] }) :=
  (get_requested_all_or_nothing confReqOk (allocOf confReqOk) "x" 5 emptyStore
    rfl (by decide)).2.2.1 rfl rfl
